import Mathlib

/-!
Shallow embedding of the gratefulness-jar entry layer:
`src/lib/services/dateService.ts`, `src/lib/services/entryService.ts`,
`src/lib/services/calendarService.ts`, `src/lib/db/schema.ts` and the
entry types of `src/types`.  JavaScript strings are modelled as Lean
strings (lists of characters); the IndexedDB `entries` table is a list
of records with the Dexie constraints (primary key `id`, unique index
`entry_date`) made explicit in `dbAdd`.
-/

namespace Gratefulness

/-! JavaScript string primitives used by the services. -/

/-- Model of `String.prototype.trim`: strip whitespace from both ends. -/
def jsTrim (s : String) : String :=
  ⟨((s.data.dropWhile Char.isWhitespace).reverse.dropWhile Char.isWhitespace).reverse⟩

/-- Model of `String.prototype.toLowerCase` (ASCII lowering). -/
def jsToLower (s : String) : String :=
  ⟨s.data.map Char.toLower⟩

/-- Whether the first list starts with the second. -/
def startsWith : List Char → List Char → Bool
  | _, [] => true
  | [], _ :: _ => false
  | c :: cs, d :: ds => c == d && startsWith cs ds

/-- Whether `needle` occurs as a contiguous run inside the second list. -/
def containsSub (needle : List Char) : List Char → Bool
  | [] => startsWith [] needle
  | c :: cs => startsWith (c :: cs) needle || containsSub needle cs

/-- Model of `String.prototype.includes`: substring containment. -/
def jsIncludes (s sub : String) : Bool :=
  containsSub sub.data s.data

/-! Date model.  `dateService.ts` stores dates as local `YYYY-MM-DD`
strings; a parsed date is a (year, month, day) triple and comparisons go
through a day ordinal, mirroring `startOfDay` + `differenceInDays`. -/

/-- A parsed local calendar date (the model of a `Date` at start of day). -/
structure LocalDate where
  year : Nat
  month : Nat
  day : Nat
deriving DecidableEq, Repr

/-- Gregorian leap-year rule (as used by the JS `Date` object). -/
def isLeapYear (y : Nat) : Bool :=
  (y % 4 == 0 && y % 100 != 0) || y % 400 == 0

/-- Number of days in a month, the value of `new Date(year, month, 0).getDate()`
for `month` in 1..12. -/
def daysInMonth (y m : Nat) : Nat :=
  if m == 2 then (if isLeapYear y then 29 else 28)
  else if m == 4 || m == 6 || m == 9 || m == 11 then 30
  else 31

/-- Days in the months strictly before month `m` of year `y`. -/
def daysBeforeMonth (y m : Nat) : Nat :=
  ((List.range (m - 1)).map (fun i => daysInMonth y (i + 1))).foldl (· + ·) 0

/-- Day ordinal of a calendar date (rata die); differences of ordinals model
`differenceInDays` on start-of-day dates. -/
def dayNumber (d : LocalDate) : Nat :=
  365 * (d.year - 1) + (d.year - 1) / 4 + (d.year - 1) / 400
    + daysBeforeMonth d.year d.month + d.day - (d.year - 1) / 100

/-- Numeric value of a digit character. -/
def digitVal (c : Char) : Nat := c.toNat - 48

/-- Model of `parseEntryDate` (`parseISO` + validity): accepts exactly
well-formed `YYYY-MM-DD` strings denoting real calendar dates, the same
set accepted by the regex check plus `parseISO` validation in
`isValidDateString`. -/
def parseEntryDate (s : String) : Option LocalDate :=
  match s.data with
  | [y1, y2, y3, y4, c1, m1, m2, c2, d1, d2] =>
    if c1 == '-' && c2 == '-' && y1.isDigit && y2.isDigit && y3.isDigit && y4.isDigit
        && m1.isDigit && m2.isDigit && d1.isDigit && d2.isDigit then
      let y := ((digitVal y1 * 10 + digitVal y2) * 10 + digitVal y3) * 10 + digitVal y4
      let m := digitVal m1 * 10 + digitVal m2
      let d := digitVal d1 * 10 + digitVal d2
      if 1 ≤ m && m ≤ 12 && 1 ≤ d && d ≤ daysInMonth y m then some ⟨y, m, d⟩ else none
    else none
  | _ => none

/-- Model of `isValidDateString`. -/
def isValidDateString (s : String) : Bool :=
  (parseEntryDate s).isSome

/-- Model of `isFuture`: the date is strictly after `today`
(the current local date is passed explicitly). -/
def isFuture (s : String) (today : LocalDate) : Bool :=
  match parseEntryDate s with
  | none => false
  | some d => dayNumber today < dayNumber d

/-- Two-digit zero padding (format `dd` / `MM`). -/
def pad2 (n : Nat) : String :=
  if n < 10 then "0" ++ toString n else toString n

/-- Four-digit zero padding (format `yyyy`). -/
def pad4 (n : Nat) : String :=
  if n < 10 then "000" ++ toString n
  else if n < 100 then "00" ++ toString n
  else if n < 1000 then "0" ++ toString n
  else toString n

/-- Model of `getDateString`: format a date as `yyyy-MM-dd`. -/
def getDateString (d : LocalDate) : String :=
  pad4 d.year ++ "-" ++ pad2 d.month ++ "-" ++ pad2 d.day

/-- Model of `getDatesInMonth`: every date string of the month, ascending. -/
def getDatesInMonth (year month : Nat) : List String :=
  (List.range (daysInMonth year month)).map (fun i => getDateString ⟨year, month, i + 1⟩)

/-- Model of `getRelativeTime`; `today` is the current local date. -/
def getRelativeTime (dateString : String) (today : LocalDate) : String :=
  match parseEntryDate dateString with
  | none => dateString
  | some date =>
    let days : Int := (dayNumber today : Int) - (dayNumber date : Int)
    if days = 0 then "Today"
    else if days = 1 then "Yesterday"
    else if days = -1 then "Tomorrow"
    else if days < 0 then "In " ++ toString days.natAbs ++ " days"
    else if days < 7 then toString days ++ " days ago"
    else if days < 30 then
      let weeks := days.toNat / 7
      if weeks = 1 then "1 week ago" else toString weeks ++ " weeks ago"
    else if days < 365 then
      let months := days.toNat / 30
      if months = 1 then "1 month ago" else toString months ++ " months ago"
    else
      let years := days.toNat / 365
      if years = 1 then "1 year ago" else toString years ++ " years ago"

/-! Entry data model, from `src/types/entry.ts`.  The `Rating` enum has the
numeric values 1..7, so ratings are modelled as integers. -/

/-- A persisted journal entry (interface `Entry`). -/
structure Entry where
  id : String
  entry_date : String
  gratitude_text : String
  rating : Int
  created_at : Nat
  updated_at : Nat
  synced_at : Option Nat := none
  deleted : Option Bool := none
deriving DecidableEq, Repr

/-- A field-level validation error (interface `EntryValidationError`). -/
structure EntryValidationError where
  field : String
  message : String
deriving DecidableEq, Repr

/-- Result of validation (interface `ValidationResult`). -/
structure ValidationResult where
  valid : Bool
  errors : List EntryValidationError
deriving DecidableEq, Repr

/-- The `Partial<Entry>` payload seen by `validateEntry`; absent fields are
`none`. -/
structure EntryPayload where
  gratitude_text : Option String := none
  rating : Option Int := none
  entry_date : Option String := none
deriving DecidableEq, Repr

/-- Input for `createEntry` (type `CreateEntryInput`). -/
structure CreateEntryInput where
  entry_date : String
  gratitude_text : String
  rating : Int
deriving DecidableEq, Repr

/-- Input for `updateEntry` (type `UpdateEntryInput`); only text and rating
may be supplied. -/
structure UpdateEntryInput where
  gratitude_text : Option String := none
  rating : Option Int := none
deriving DecidableEq, Repr

/-- Model of `validateEntry`.  `today` stands for the current local date used
by the `isFuture` check.  The empty-string guard on `entry_date` mirrors the
JS truthiness test `data.entry_date`. -/
def validateEntry (data : EntryPayload) (isUpdate : Bool) (today : LocalDate) :
    ValidationResult :=
  let textErrors : List EntryValidationError :=
    if !isUpdate || data.gratitude_text.isSome then
      let text := data.gratitude_text.getD ""
      if (jsTrim text).length == 0 then
        [⟨"gratitude_text", "Gratitude text is required"⟩]
      else if text.length > 1000 then
        [⟨"gratitude_text", "Gratitude text must be 1000 characters or less"⟩]
      else []
    else []
  let ratingErrors : List EntryValidationError :=
    if !isUpdate || data.rating.isSome then
      match data.rating with
      | none => [⟨"rating", "Rating is required"⟩]
      | some r =>
        if r < 1 || r > 7 then [⟨"rating", "Rating must be between 1 and 7"⟩] else []
    else []
  let dateErrors : List EntryValidationError :=
    if !isUpdate then
      match data.entry_date with
      | none => []
      | some s =>
        if s == "" then []
        else if !isValidDateString s then
          [⟨"entry_date", "Invalid date format (use YYYY-MM-DD)"⟩]
        else if isFuture s today then
          [⟨"entry_date", "Cannot create entries for future dates"⟩]
        else []
    else []
  let errors := textErrors ++ ratingErrors ++ dateErrors
  { valid := errors.isEmpty, errors := errors }

/-! Persistence gateway, from `entryService.ts` and `db/schema.ts`.
The Dexie `entries` table is modelled as a list of records; the current
time (`Date.now()`), the fresh UUID and the current local date are passed
as explicit parameters. -/

/-- The IndexedDB `entries` table. -/
abbrev Store := List Entry

/-- Dexie schema constraints: primary key `id`, unique index `&entry_date`. -/
def storeWF (store : Store) : Prop :=
  store.Pairwise (fun a b => a.id ≠ b.id ∧ a.entry_date ≠ b.entry_date)

/-- Model of `db.entries.add`: fails (rejects) when the primary key or the
unique `entry_date` index would be violated, otherwise appends. -/
def dbAdd (store : Store) (e : Entry) : Option Store :=
  if store.any (fun x => x.id == e.id || x.entry_date == e.entry_date) then none
  else some (store ++ [e])

/-- Model of `getEntryByDate` on the success path:
`db.entries.where(entry_date).equals(dateString).first()`. -/
def getEntryByDate (store : Store) (dateString : String) : Option Entry :=
  store.find? (fun e => e.entry_date == dateString)

/-- Model of `getEntryById` on the success path: `db.entries.get(id)`. -/
def getEntryById (store : Store) (id : String) : Option Entry :=
  store.find? (fun e => e.id == id)

/-- Descending `entry_date` order used by `getAllEntries`
(`orderBy(entry_date).reverse()`): `a` may come before `b` when
`b.entry_date <= a.entry_date`. -/
def dateDesc (a b : Entry) : Prop := b.entry_date ≤ a.entry_date

instance : DecidableRel dateDesc :=
  fun a b => inferInstanceAs (Decidable (b.entry_date ≤ a.entry_date))

/-- An underlying IndexedDB fault (what the `catch` blocks catch). -/
inductive DbError
  | fault
deriving DecidableEq, Repr

/-- Model of `getAllEntries`: sorts descending by date; a store fault is
re-thrown as the generic message. -/
def getAllEntries (dbResult : Except DbError (List Entry)) :
    Except String (List Entry) :=
  match dbResult with
  | .ok entries => .ok (List.insertionSort dateDesc entries)
  | .error _ => .error "Failed to load entries"

/-- Convert a `CreateEntryInput` to the `Partial<Entry>` payload that
`createEntry` hands to `validateEntry`. -/
def toPayload (input : CreateEntryInput) : EntryPayload :=
  { gratitude_text := some input.gratitude_text
    rating := some input.rating
    entry_date := some input.entry_date }

/-- Model of `createEntry`.  `now` is `Date.now()`, `freshId` the generated
UUID, `today` the current local date used by validation.  On the
`.error` branches nothing has been written, so the table is unchanged. -/
def createEntry (store : Store) (input : CreateEntryInput) (now : Nat)
    (freshId : String) (today : LocalDate) : Except String (Entry × Store) :=
  let validation := validateEntry (toPayload input) false today
  if !validation.valid then
    .error (String.intercalate ", " (validation.errors.map EntryValidationError.message))
  else
    match getEntryByDate store input.entry_date with
    | some _ =>
      .error ("An entry already exists for " ++ input.entry_date
        ++ ". Please edit the existing entry instead.")
    | none =>
      let entry : Entry :=
        { id := freshId
          entry_date := input.entry_date
          gratitude_text := jsTrim input.gratitude_text
          rating := input.rating
          created_at := now
          updated_at := now }
      match dbAdd store entry with
      | some s => .ok (entry, s)
      | none =>
        .error "An entry already exists for this date. Please edit the existing entry instead."

/-- Model of `updateEntry`: validates the partial payload, looks the record
up by id, merges the supplied fields (trimming supplied text), refreshes
`updated_at`, and writes the merged record back under the same key. -/
def updateEntry (store : Store) (id : String) (updates : UpdateEntryInput)
    (now : Nat) (today : LocalDate) : Except String (Entry × Store) :=
  let validation :=
    validateEntry { gratitude_text := updates.gratitude_text, rating := updates.rating }
      true today
  if !validation.valid then
    .error (String.intercalate ", " (validation.errors.map EntryValidationError.message))
  else
    match getEntryById store id with
    | none => .error "Entry not found"
    | some existing =>
      let updatedEntry : Entry :=
        { id := existing.id
          entry_date := existing.entry_date
          gratitude_text := (updates.gratitude_text.map jsTrim).getD existing.gratitude_text
          rating := updates.rating.getD existing.rating
          created_at := existing.created_at
          updated_at := now
          synced_at := existing.synced_at
          deleted := existing.deleted }
      .ok (updatedEntry, store.map (fun x => if x.id == id then updatedEntry else x))

/-- Model of `deleteEntry`: not-found check, then `db.entries.delete(id)`. -/
def deleteEntry (store : Store) (id : String) : Except String Store :=
  match getEntryById store id with
  | none => .error "Entry not found"
  | some _ => .ok (store.filter (fun x => !(x.id == id)))

/-- Model of `getEntryCount`: a store fault is swallowed and `0` returned. -/
def getEntryCount (dbResult : Except DbError Nat) : Except String Nat :=
  match dbResult with
  | .ok n => .ok n
  | .error _ => .ok 0

/-- Model of `getRandomEntry`: filters out today, indexes by the random
draw; a store fault is swallowed and `null` returned. -/
def getRandomEntry (today : String) (dbResult : Except DbError (List Entry))
    (randomIndex : Nat) : Except String (Option Entry) :=
  match dbResult with
  | .error _ => .ok none
  | .ok table =>
    let entries := table.filter (fun e => !(e.entry_date == today))
    if entries.length == 0 then .ok none
    else .ok (entries.get? randomIndex)

/-- Model of `searchEntries`: normalizes the query, returns `[]` for an
empty normalized query, otherwise filters all entries by case-insensitive
substring match; any store fault is swallowed and `[]` returned. -/
def searchEntries (query : String) (dbResult : Except DbError (List Entry)) :
    Except String (List Entry) :=
  let normalizedQuery := jsTrim (jsToLower query)
  if normalizedQuery == "" then .ok []
  else
    match getAllEntries dbResult with
    | .ok allEntries =>
      .ok (allEntries.filter (fun e =>
        jsIncludes (jsToLower e.gratitude_text) normalizedQuery))
    | .error _ => .ok []

/-- Model of `exportDatabase`: the JSON snapshot of all records; the
stringify/parse round trip is modelled as the identity on the record
list. -/
def exportDatabase (store : Store) : List Entry := store

/-- The `for` loop of `importDatabase`: add each record, skipping any
whose insertion is rejected by the store constraints. -/
def importLoop (store : Store) (imported : Nat) : List Entry → Nat × Store
  | [] => (imported, store)
  | e :: rest =>
    match dbAdd store e with
    | some s => importLoop s (imported + 1) rest
    | none => importLoop store imported rest

/-- Model of `importDatabase`: merges the snapshot into the store and
returns the number of successfully inserted records. -/
def importDatabase (store : Store) (entries : List Entry) : Nat × Store :=
  importLoop store 0 entries

/-! Derived statistics, from `calendarService.ts`. -/

/-- Month statistics (interface `MonthStats`); `averageRating` is a
rational modelling the JS number. -/
structure MonthStats where
  totalEntries : Nat
  averageRating : Option Rat
  bestDay : Option (String × Int)
  completionRate : Nat
deriving DecidableEq, Repr

/-- Descending rating order used by the `bestDay` sort
(comparator `b.rating - a.rating`): `a` may come before `b` when
`b.rating <= a.rating`; `insertionSort` with this relation is the stable
descending sort that `Array.prototype.sort` performs. -/
def ratingDesc (a b : Entry) : Prop := b.rating ≤ a.rating

instance : DecidableRel ratingDesc :=
  fun a b => inferInstanceAs (Decidable (b.rating ≤ a.rating))

/-- Model of `calculateMonthStats`.  `completionRate` is
`Math.round(totalEntries / daysInMonth * 100)`, written as floor of
`x + 1/2` over the integers. -/
def calculateMonthStats (entries : List Entry) (year month : Nat) : MonthStats :=
  let datesOfMonth := getDatesInMonth year month
  let totalDaysInMonth := datesOfMonth.length
  let monthEntries := entries.filter (fun e => datesOfMonth.contains e.entry_date)
  let totalEntries := monthEntries.length
  let averageRating : Option Rat :=
    if totalEntries > 0 then
      some (((monthEntries.foldl (fun sum e => sum + e.rating) 0 : Int) : Rat)
        / (totalEntries : Rat))
    else none
  let bestDay : Option (String × Int) :=
    if totalEntries > 0 then
      match List.insertionSort ratingDesc monthEntries with
      | best :: _ => some (best.entry_date, best.rating)
      | [] => none
    else none
  let completionRate :=
    if totalDaysInMonth > 0 then
      (totalEntries * 100 * 2 + totalDaysInMonth) / (2 * totalDaysInMonth)
    else 0
  { totalEntries := totalEntries
    averageRating := averageRating
    bestDay := bestDay
    completionRate := completionRate }

/-- Specification-side predicate for the tie-break of `bestDay`: the first
entry of the list whose rating dominates every rating in the list. -/
def firstMaxEntry (l : List Entry) : Option Entry :=
  l.find? (fun e => l.all (fun x => decide (x.rating ≤ e.rating)))

/-! A small operational model for sequences of mutating gateway calls,
used to state the timestamp invariant. -/

/-- One mutating gateway call, with the inputs the client supplies. -/
inductive Op
  | create (input : CreateEntryInput) (freshId : String) (today : LocalDate)
  | update (id : String) (updates : UpdateEntryInput) (today : LocalDate)
  | delete (id : String)

/-- Apply one gateway call at time `now`; a rejected call leaves the
table unchanged (every `throw` in the source happens before or instead
of the write). -/
def applyOp (store : Store) (now : Nat) : Op → Store
  | .create input freshId today =>
    match createEntry store input now freshId today with
    | .ok (_, s) => s
    | .error _ => store
  | .update i updates today =>
    match updateEntry store i updates now today with
    | .ok (_, s) => s
    | .error _ => store
  | .delete i =>
    match deleteEntry store i with
    | .ok s => s
    | .error _ => store

/-- Run a sequence of timestamped gateway calls. -/
def runOps (store : Store) : List (Nat × Op) → Store
  | [] => store
  | p :: rest => runOps (applyOp store p.1 p.2) rest

/-- Timestamp invariant: every record was updated no earlier than it was
created, and no later than the current clock. -/
def TimeInv (store : Store) (clock : Nat) : Prop :=
  ∀ e ∈ store, e.created_at ≤ e.updated_at ∧ e.updated_at ≤ clock

/-- The timestamps of an operation sequence are nondecreasing and start
no earlier than the initial clock (`Date.now()` is monotone). -/
def Chrono : Nat → List (Nat × Op) → Prop
  | _, [] => True
  | clock, p :: rest => clock ≤ p.1 ∧ Chrono p.1 rest

/-! Concrete data used to evaluate the theorems on sample inputs. -/

/-- A text whose trimmed length is 1 but whose raw length is 1001. -/
def longText : String := ⟨'a' :: List.replicate 1000 ' '⟩

/-- A sample timestamped operation sequence. -/
def demoOps : List (Nat × Op) :=
  [(5, .create ⟨"2024-06-01", " first entry ", 4⟩ "id1" ⟨2024, 6, 15⟩),
   (9, .update "id1" ⟨none, some 6⟩ ⟨2024, 6, 15⟩),
   (12, .create ⟨"2024-06-02", "second", 3⟩ "id2" ⟨2024, 6, 15⟩),
   (20, .delete "id2")]

/-- A sample persisted entry. -/
def demoEntry : Entry :=
  { id := "id1", entry_date := "2024-06-01", gratitude_text := "sunny walk"
    rating := 5, created_at := 100, updated_at := 100 }

/-- A second sample entry on another date. -/
def demoEntry2 : Entry :=
  { id := "id2", entry_date := "2024-06-02", gratitude_text := "good tea"
    rating := 3, created_at := 150, updated_at := 160 }

/-! Helper lemmas about lookups in a well-formed store. -/

theorem getEntryById_eq_of_mem {store : Store} {e : Entry}
    (hwf : storeWF store) (he : e ∈ store) :
    getEntryById store e.id = some e := by
  induction store with
  | nil => cases he
  | cons a rest ih =>
    rcases List.pairwise_cons.mp hwf with ⟨ha, hrest⟩
    rcases List.mem_cons.mp he with rfl | hmem
    · simp [getEntryById, List.find?]
    · have hne : a.id ≠ e.id := (ha e hmem).1
      have : (a.id == e.id) = false := beq_eq_false_iff_ne.mpr hne
      simp only [getEntryById, List.find?, this]
      exact ih hrest hmem

theorem getEntryByDate_eq_of_mem {store : Store} {e : Entry}
    (hwf : storeWF store) (he : e ∈ store) :
    getEntryByDate store e.entry_date = some e := by
  induction store with
  | nil => cases he
  | cons a rest ih =>
    rcases List.pairwise_cons.mp hwf with ⟨ha, hrest⟩
    rcases List.mem_cons.mp he with rfl | hmem
    · simp [getEntryByDate, List.find?]
    · have hne : a.entry_date ≠ e.entry_date := (ha e hmem).2
      have : (a.entry_date == e.entry_date) = false := beq_eq_false_iff_ne.mpr hne
      simp only [getEntryByDate, List.find?, this]
      exact ih hrest hmem

theorem filter_id_singleton {store : Store} {e : Entry}
    (hwf : storeWF store) (he : e ∈ store) :
    store.filter (fun x => x.id == e.id) = [e] := by
  induction store with
  | nil => cases he
  | cons a rest ih =>
    rcases List.pairwise_cons.mp hwf with ⟨ha, hrest⟩
    rcases List.mem_cons.mp he with rfl | hmem
    · have hnone : rest.filter (fun x => x.id == e.id) = [] := by
        apply List.filter_eq_nil_iff.mpr
        intro x hx
        simpa using ((ha x hx).1 ∘ Eq.symm)
      simp [List.filter, hnone]
    · have hne : a.id ≠ e.id := (ha e hmem).1
      have hba : (a.id == e.id) = false := beq_eq_false_iff_ne.mpr hne
      simp only [List.filter, hba]
      exact ih hrest hmem

theorem filter_date_singleton {store : Store} {e : Entry}
    (hwf : storeWF store) (he : e ∈ store) :
    store.filter (fun x => x.entry_date == e.entry_date) = [e] := by
  induction store with
  | nil => cases he
  | cons a rest ih =>
    rcases List.pairwise_cons.mp hwf with ⟨ha, hrest⟩
    rcases List.mem_cons.mp he with rfl | hmem
    · have hnone : rest.filter (fun x => x.entry_date == e.entry_date) = [] := by
        apply List.filter_eq_nil_iff.mpr
        intro x hx
        simpa using ((ha x hx).2 ∘ Eq.symm)
      simp [List.filter, hnone]
    · have hne : a.entry_date ≠ e.entry_date := (ha e hmem).2
      have hba : (a.entry_date == e.entry_date) = false := beq_eq_false_iff_ne.mpr hne
      simp only [List.filter, hba]
      exact ih hrest hmem

/-- C8: deleting a present id removes exactly that record, after which
`getEntryById` returns `null` and a second delete of the same id fails
with the not-found error; deleting an absent id fails with the
not-found error and (the model returning the table untouched on the
error path) leaves the store unchanged. -/
theorem deleteEntry_spec (store : Store) (i : String) (e : Entry)
    (hwf : storeWF store) (he : e ∈ store) (hid : e.id = i) :
    deleteEntry store i = .ok (store.filter (fun x => !(x.id == i))) ∧
    store.filter (fun x => x.id == i) = [e] ∧
    getEntryById (store.filter (fun x => !(x.id == i))) i = none ∧
    deleteEntry (store.filter (fun x => !(x.id == i))) i = .error "Entry not found" ∧
    (∀ s2 : Store, (∀ x ∈ s2, x.id ≠ i) → deleteEntry s2 i = .error "Entry not found") := by
  subst hid
  have hfound := getEntryById_eq_of_mem hwf he
  have habsent : ∀ s2 : Store, (∀ x ∈ s2, x.id ≠ e.id) →
      getEntryById s2 e.id = none := by
    intro s2 h2
    apply List.find?_eq_none.mpr
    intro x hx
    simpa using h2 x hx
  have hmemfilter : ∀ x ∈ store.filter (fun x => !(x.id == e.id)), x.id ≠ e.id := by
    intro x hx
    have := List.of_mem_filter hx
    simpa using this
  refine ⟨?_, filter_id_singleton hwf he, ?_, ?_, ?_⟩
  · simp [deleteEntry, hfound]
  · exact habsent _ hmemfilter
  · simp [deleteEntry, habsent _ hmemfilter]
  · intro s2 h2
    simp [deleteEntry, habsent s2 h2]

/-- C8 witness: the theorem evaluated on a concrete two-entry store. -/
theorem deleteEntry_spec_witness :
    deleteEntry [demoEntry, demoEntry2] "id1" = .ok [demoEntry2] := by
  have h := deleteEntry_spec [demoEntry, demoEntry2] "id1" demoEntry
    (by constructor <;> simp [demoEntry, demoEntry2, storeWF]) (by simp) (by rfl)
  have h1 := h.1
  simpa [demoEntry, demoEntry2] using h1

/-- C1: a create call for a date that already has an entry fails with the
duplicate-date error (the read-before-write check fires), and the store
still contains exactly one record for that date, the pre-existing one,
unchanged. -/
theorem createEntry_duplicate_spec (store : Store) (input : CreateEntryInput)
    (now : Nat) (freshId : String) (today : LocalDate) (e : Entry)
    (hwf : storeWF store) (he : e ∈ store) (hd : e.entry_date = input.entry_date)
    (hv : (validateEntry (toPayload input) false today).valid = true) :
    createEntry store input now freshId today =
      .error ("An entry already exists for " ++ input.entry_date
        ++ ". Please edit the existing entry instead.") ∧
    store.filter (fun x => x.entry_date == input.entry_date) = [e] := by
  have hfound : getEntryByDate store input.entry_date = some e := by
    rw [← hd]; exact getEntryByDate_eq_of_mem hwf he
  constructor
  · simp [createEntry, hv, hfound]
  · rw [← hd]; exact filter_date_singleton hwf he

/-- C1 witness: a concrete duplicate create against a one-entry store. -/
theorem createEntry_duplicate_witness :
    createEntry [demoEntry] ⟨"2024-06-01", "nice day", 5⟩ 200 "idX" ⟨2024, 6, 15⟩ =
      .error ("An entry already exists for " ++ "2024-06-01"
        ++ ". Please edit the existing entry instead.") := by
  have h := createEntry_duplicate_spec [demoEntry] ⟨"2024-06-01", "nice day", 5⟩
    200 "idX" ⟨2024, 6, 15⟩ demoEntry (by simp [storeWF]) (by simp) (by rfl) (by decide)
  exact h.1

/-- C3: updating only the rating of an existing record succeeds; the
returned record keeps the original id, date, text and creation time,
changing only `rating` and `updated_at`, and every other record of the
store is untouched. -/
theorem updateEntry_rating_spec (store : Store) (e : Entry) (i : String) (R : Int)
    (now : Nat) (today : LocalDate)
    (hwf : storeWF store) (he : e ∈ store) (hid : e.id = i)
    (h1 : 1 ≤ R) (h7 : R ≤ 7) :
    updateEntry store i ⟨none, some R⟩ now today =
      .ok ({ e with rating := R, updated_at := now },
        store.map (fun x =>
          if x.id == i then { e with rating := R, updated_at := now } else x)) ∧
    (∀ x ∈ store, x.id ≠ i →
      x ∈ store.map (fun x =>
        if x.id == i then { e with rating := R, updated_at := now } else x)) := by
  subst hid
  have hval :
      (validateEntry { gratitude_text := none, rating := some R } true ⟨0, 0, 0⟩).errors
        = [] := by
    have ha : ¬ R < 1 := by omega
    have hb : ¬ R > 7 := by omega
    simp [validateEntry, ha, hb]
  have hfound := getEntryById_eq_of_mem hwf he
  constructor
  · have ha : ¬ R < 1 := by omega
    have hb : ¬ R > 7 := by omega
    simp [updateEntry, validateEntry, ha, hb, hfound]
  · intro x hx hne
    refine List.mem_map.mpr ⟨x, hx, ?_⟩
    simp [beq_eq_false_iff_ne.mpr hne]

/-- C3 witness: a concrete rating-only update on a one-entry store. -/
theorem updateEntry_rating_witness :
    updateEntry [demoEntry] "id1" ⟨none, some 7⟩ 300 ⟨2024, 6, 15⟩ =
      .ok ({ demoEntry with rating := 7, updated_at := 300 },
        [{ demoEntry with rating := 7, updated_at := 300 }]) := by
  have h := updateEntry_rating_spec [demoEntry] demoEntry "id1" 7 300 ⟨2024, 6, 15⟩
    (by simp [storeWF]) (by simp) (by rfl) (by decide) (by decide)
  have h1 := h.1
  simpa [demoEntry] using h1

theorem toLower_of_whitespace {c : Char} (h : c.isWhitespace = true) :
    c.toLower = c := by
  simp [Char.isWhitespace] at h
  rcases h with ((h | h) | h) | h <;> subst h <;> decide

theorem map_toLower_of_whitespace : ∀ (l : List Char),
    (∀ c ∈ l, c.isWhitespace = true) → l.map Char.toLower = l := by
  intro l h
  induction l with
  | nil => rfl
  | cons a t ih =>
    simp only [List.map_cons]
    rw [toLower_of_whitespace (h a (by simp)), ih (fun c hc => h c (by simp [hc]))]

theorem jsTrim_toLower_of_whitespace {q : String}
    (h : ∀ c ∈ q.data, c.isWhitespace = true) :
    jsTrim (jsToLower q) = "" := by
  have hmap : (jsToLower q).data = q.data := by
    show List.map Char.toLower q.data = q.data
    exact map_toLower_of_whitespace q.data h
  have hdrop : (jsToLower q).data.dropWhile Char.isWhitespace = [] := by
    rw [hmap]
    exact List.dropWhile_eq_nil_iff.mpr h
  simp only [jsTrim, hdrop]
  rfl

/-- C10: a query that is empty or all whitespace returns the empty list
(not all entries); a query with non-empty normalized form returns exactly
the entries whose text contains the lower-cased trimmed query as a
case-insensitive substring. -/
theorem searchEntries_spec (q : String) (store : List Entry) :
    ((∀ c ∈ q.data, c.isWhitespace = true) → searchEntries q (.ok store) = .ok []) ∧
    (jsTrim (jsToLower q) ≠ "" →
      searchEntries q (.ok store) =
        .ok ((List.insertionSort dateDesc store).filter (fun e =>
          jsIncludes (jsToLower e.gratitude_text) (jsTrim (jsToLower q)))) ∧
      ∀ e : Entry,
        e ∈ (List.insertionSort dateDesc store).filter (fun e =>
          jsIncludes (jsToLower e.gratitude_text) (jsTrim (jsToLower q))) ↔
        e ∈ store ∧
          jsIncludes (jsToLower e.gratitude_text) (jsTrim (jsToLower q)) = true) := by
  constructor
  · intro h
    have hempty := jsTrim_toLower_of_whitespace h
    simp [searchEntries, hempty]
  · intro h
    have hne : (jsTrim (jsToLower q) == "") = false := beq_eq_false_iff_ne.mpr h
    constructor
    · simp [searchEntries, hne, getAllEntries]
    · intro e
      simp [List.mem_filter, List.mem_insertionSort]

/-- C10 witness: concrete whitespace and matching queries on a one-entry
store. -/
theorem searchEntries_spec_witness :
    searchEntries "  " (.ok [demoEntry]) = .ok [] ∧
    searchEntries "SUN" (.ok [demoEntry]) = .ok [demoEntry] := by
  refine ⟨(searchEntries_spec "  " [demoEntry]).1 (by decide), ?_⟩
  have h := ((searchEntries_spec "SUN" [demoEntry]).2 (by decide)).1
  have h2 : (List.insertionSort dateDesc [demoEntry]).filter (fun e =>
      jsIncludes (jsToLower e.gratitude_text) (jsTrim (jsToLower "SUN"))) = [demoEntry] := by
    decide
  rw [h2] at h
  exact h

/-- C5 counterexample: on an underlying store fault, `getEntryCount`,
`getRandomEntry` and `searchEntries` do not reject; each resolves
normally with its fallback value. -/
theorem storageSwallow_counterexample :
    getEntryCount (Except.error DbError.fault) = Except.ok 0 ∧
    getRandomEntry "2024-06-15" (Except.error DbError.fault) 0 = Except.ok none ∧
    searchEntries "abc" (Except.error DbError.fault) = Except.ok [] := by
  exact ⟨rfl, rfl, rfl⟩

/-- C5 amended: reads such as `getAllEntries` re-throw a store fault as a
generic user-facing error, but `getEntryCount`, `getRandomEntry` and
`searchEntries` swallow the fault and resolve with `0`, `null` and the
empty list respectively. -/
theorem storageSwallow_spec (err : DbError) (today q : String) (ri : Nat) :
    getEntryCount (.error err) = .ok 0 ∧
    getRandomEntry today (.error err) ri = .ok none ∧
    searchEntries q (.error err) = .ok [] ∧
    getAllEntries (Except.error (α := List Entry) err) =
      .error "Failed to load entries" := by
  refine ⟨rfl, rfl, ?_, rfl⟩
  simp only [searchEntries, getAllEntries]
  split <;> rfl

set_option maxRecDepth 20000 in
/-- C2 counterexample: a payload whose gratitude text has trimmed length 1
(within [1,1000]) and rating 5 is nevertheless rejected, because the
1000-character bound is checked on the raw, untrimmed text (here of
length 1001). -/
theorem validateEntry_trimmed_counterexample :
    1 ≤ (jsTrim longText).length ∧ (jsTrim longText).length ≤ 1000 ∧
    (validateEntry ⟨some longText, some 5, none⟩ false ⟨2024, 6, 15⟩).valid = false ∧
    (validateEntry ⟨some longText, some 5, none⟩ false ⟨2024, 6, 15⟩).errors =
      [⟨"gratitude_text", "Gratitude text must be 1000 characters or less"⟩] := by
  refine ⟨by decide, by decide, by decide, by decide⟩

/-- C2 amended: a create payload whose gratitude text has trimmed length at
least 1 and raw length at most 1000, whose rating lies in 1..7, and whose
entry date (if supplied) is a well-formed non-future date, validates with
`valid = true` and no errors. -/
theorem validateEntry_valid_spec (data : EntryPayload) (today : LocalDate)
    (t : String) (ht : data.gratitude_text = some t)
    (h1 : 1 ≤ (jsTrim t).length) (h2 : t.length ≤ 1000)
    (r : Int) (hr : data.rating = some r) (hr1 : 1 ≤ r) (hr2 : r ≤ 7)
    (hd : ∀ s, data.entry_date = some s →
      isValidDateString s = true ∧ isFuture s today = false) :
    validateEntry data false today = ⟨true, []⟩ := by
  have hlen : ((jsTrim t).length == 0) = false :=
    beq_eq_false_iff_ne.mpr (by omega)
  have hlen2 : ¬ t.length > 1000 := by omega
  have hra : ¬ r < 1 := by omega
  have hrb : ¬ r > 7 := by omega
  cases hdate : data.entry_date with
  | none => simp [validateEntry, ht, hr, hdate, hlen, hlen2, hra, hrb]
  | some s =>
    rcases hd s hdate with ⟨hv, hf⟩
    by_cases hs : s = ""
    · subst hs
      simp [validateEntry, ht, hr, hdate, hlen, hlen2, hra, hrb]
    · have hsb : (s == "") = false := beq_eq_false_iff_ne.mpr hs
      simp [validateEntry, ht, hr, hdate, hlen, hlen2, hra, hrb, hsb, hv, hf]

/-- C2 amended witness: a concrete valid payload with a padded text, rating
5 and a past date. -/
theorem validateEntry_valid_witness :
    validateEntry ⟨some " grateful for rain ", some 5, some "2024-06-14"⟩ false
      ⟨2024, 6, 15⟩ = ⟨true, []⟩ := by
  apply validateEntry_valid_spec _ _ " grateful for rain " rfl (by decide) (by decide)
    5 rfl (by decide) (by decide)
  intro s hs
  have hs' : some "2024-06-14" = some s := hs
  cases hs'
  exact ⟨by decide, by decide⟩

/-- C9: for a parseable date `n` days in the past, `getRelativeTime`
returns "Yesterday" at `n = 1`, "1 week ago" at `n = 8`, "N days ago" for
`2 <= n < 7`, the floor-of-`n/7` weeks label for `7 <= n < 30`, the
floor-of-`n/30` months label for `30 <= n < 365`, and the
floor-of-`n/365` years label for `n >= 365`. -/
theorem getRelativeTime_spec (ds : String) (today d : LocalDate) (n : Int)
    (hp : parseEntryDate ds = some d)
    (hn : (dayNumber today : Int) - (dayNumber d : Int) = n) :
    (n = 1 → getRelativeTime ds today = "Yesterday") ∧
    (n = 8 → getRelativeTime ds today = "1 week ago") ∧
    (2 ≤ n → n < 7 → getRelativeTime ds today = toString n ++ " days ago") ∧
    (7 ≤ n → n < 30 →
      getRelativeTime ds today =
        (if n.toNat / 7 = 1 then "1 week ago"
         else toString (n.toNat / 7) ++ " weeks ago")) ∧
    (30 ≤ n → n < 365 →
      getRelativeTime ds today =
        (if n.toNat / 30 = 1 then "1 month ago"
         else toString (n.toNat / 30) ++ " months ago")) ∧
    (365 ≤ n →
      getRelativeTime ds today =
        (if n.toNat / 365 = 1 then "1 year ago"
         else toString (n.toNat / 365) ++ " years ago")) := by
  simp only [getRelativeTime, hp]
  rw [hn]
  refine ⟨?_, ?_, ?_, ?_, ?_, ?_⟩
  · intro h; subst h; decide
  · intro h; subst h; decide
  · intro ha hb
    rw [if_neg (by omega : ¬ n = 0), if_neg (by omega : ¬ n = 1),
      if_neg (by omega : ¬ n = -1), if_neg (by omega : ¬ n < 0),
      if_pos (by omega : n < 7)]
  · intro ha hb
    rw [if_neg (by omega : ¬ n = 0), if_neg (by omega : ¬ n = 1),
      if_neg (by omega : ¬ n = -1), if_neg (by omega : ¬ n < 0),
      if_neg (by omega : ¬ n < 7), if_pos (by omega : n < 30)]
  · intro ha hb
    rw [if_neg (by omega : ¬ n = 0), if_neg (by omega : ¬ n = 1),
      if_neg (by omega : ¬ n = -1), if_neg (by omega : ¬ n < 0),
      if_neg (by omega : ¬ n < 7), if_neg (by omega : ¬ n < 30),
      if_pos (by omega : n < 365)]
  · intro ha
    rw [if_neg (by omega : ¬ n = 0), if_neg (by omega : ¬ n = 1),
      if_neg (by omega : ¬ n = -1), if_neg (by omega : ¬ n < 0),
      if_neg (by omega : ¬ n < 7), if_neg (by omega : ¬ n < 30),
      if_neg (by omega : ¬ n < 365)]

/-- C9 witness: the Yesterday and 1-week-ago cases on concrete dates. -/
theorem getRelativeTime_spec_witness :
    getRelativeTime "2024-06-01" ⟨2024, 6, 2⟩ = "Yesterday" ∧
    getRelativeTime "2024-06-01" ⟨2024, 6, 9⟩ = "1 week ago" := by
  refine ⟨(getRelativeTime_spec "2024-06-01" ⟨2024, 6, 2⟩ ⟨2024, 6, 1⟩ 1
    (by decide) (by decide)).1 rfl, ?_⟩
  exact (getRelativeTime_spec "2024-06-01" ⟨2024, 6, 9⟩ ⟨2024, 6, 1⟩ 8
    (by decide) (by decide)).2.1 rfl

theorem dbAdd_some {store : Store} {e : Entry} {s : Store}
    (h : dbAdd store e = some s) : s = store ++ [e] := by
  unfold dbAdd at h
  split at h
  · cases h
  · exact (Option.some.inj h).symm

theorem createEntry_ok_inv {store : Store} {input : CreateEntryInput} {now : Nat}
    {freshId : String} {today : LocalDate} {en : Entry} {s : Store}
    (h : createEntry store input now freshId today = .ok (en, s)) :
    s = store ++ [en] ∧ en.created_at = now ∧ en.updated_at = now := by
  simp only [createEntry] at h
  split at h
  · cases h
  · split at h
    · cases h
    · split at h
      · rename_i s' heq
        cases h
        exact ⟨dbAdd_some heq, rfl, rfl⟩
      · cases h

theorem updateEntry_ok_inv {store : Store} {i : String} {updates : UpdateEntryInput}
    {now : Nat} {today : LocalDate} {en : Entry} {s : Store}
    (h : updateEntry store i updates now today = .ok (en, s)) :
    ∃ existing, existing ∈ store ∧ en.created_at = existing.created_at ∧
      en.updated_at = now ∧ s = store.map (fun x => if x.id == i then en else x) := by
  simp only [updateEntry] at h
  split at h
  · cases h
  · split at h
    · cases h
    · rename_i existing heq
      have hmem : existing ∈ store := List.mem_of_find?_eq_some heq
      cases h
      exact ⟨existing, hmem, rfl, rfl, rfl⟩

theorem deleteEntry_ok_inv {store : Store} {i : String} {s : Store}
    (h : deleteEntry store i = .ok s) :
    s = store.filter (fun x => !(x.id == i)) := by
  simp only [deleteEntry] at h
  split at h
  · cases h
  · exact (Except.ok.inj h).symm

theorem applyOp_timeInv {store : Store} {clock now : Nat} {op : Op}
    (hinv : TimeInv store clock) (hle : clock ≤ now) :
    TimeInv (applyOp store now op) now := by
  have hweak : TimeInv store now := fun e he =>
    ⟨(hinv e he).1, le_trans (hinv e he).2 hle⟩
  cases op with
  | create input freshId today =>
    simp only [applyOp]
    split
    · rename_i en s h
      obtain ⟨hs, hc, hu⟩ := createEntry_ok_inv h
      subst hs
      intro e he
      rcases List.mem_append.mp he with he | he
      · exact hweak e he
      · have heq : e = en := by simpa using he
        subst heq
        exact ⟨by rw [hc, hu], by rw [hu]⟩
    · exact hweak
  | update i updates today =>
    simp only [applyOp]
    split
    · rename_i en s h
      obtain ⟨existing, hmem, hc, hu, hs⟩ := updateEntry_ok_inv h
      subst hs
      intro e he
      rcases List.mem_map.mp he with ⟨x, hx, hxe⟩
      by_cases hxi : (x.id == i) = true
      · rw [if_pos hxi] at hxe
        subst hxe
        refine ⟨?_, by rw [hu]⟩
        rw [hc, hu]
        exact le_trans (hinv existing hmem).1 (le_trans (hinv existing hmem).2 hle)
      · rw [if_neg hxi] at hxe
        subst hxe
        exact hweak x hx
    · exact hweak
  | delete i =>
    simp only [applyOp]
    split
    · rename_i s h
      rw [deleteEntry_ok_inv h]
      intro e he
      exact hweak e (List.mem_of_mem_filter he)
    · exact hweak

theorem runOps_timeInv : ∀ (ops : List (Nat × Op)) (store : Store) (clock : Nat),
    TimeInv store clock → Chrono clock ops →
    ∃ c, TimeInv (runOps store ops) c := by
  intro ops
  induction ops with
  | nil => exact fun store clock h _ => ⟨clock, h⟩
  | cons p rest ih =>
    intro store clock h hc
    exact ih _ p.1 (applyOp_timeInv h hc.1) hc.2

/-- C4: starting from a store satisfying the timestamp invariant, any
chronological sequence of create, update and delete calls leaves every
persisted record with `updated_at >= created_at` (creates set both
timestamps to the call time, updates refresh only `updated_at` to a time
no earlier than the record's creation time). -/
theorem updated_at_ge_created_at (store : Store) (clock : Nat)
    (ops : List (Nat × Op)) (hinv : TimeInv store clock) (hc : Chrono clock ops) :
    ∀ e ∈ runOps store ops, e.created_at ≤ e.updated_at := by
  obtain ⟨c, h⟩ := runOps_timeInv ops store clock hinv hc
  exact fun e he => (h e he).1

/-- C4 witness: the invariant evaluated after a concrete sequence of a
create, an update, a second create and a delete. -/
theorem updated_at_ge_created_at_witness :
    (runOps [] demoOps).all (fun e => decide (e.created_at ≤ e.updated_at)) = true := by
  have h := updated_at_ge_created_at [] 0 demoOps (fun e he => absurd he (by simp))
    ⟨by decide, by decide, by decide, by decide, trivial⟩
  exact List.all_eq_true.mpr (fun e he => decide_eq_true (h e he))

theorem any_key_eq_any_date {store : Store} {e : Entry}
    (hid : ∀ x ∈ store, x.id ≠ e.id) :
    store.any (fun x => x.id == e.id || x.entry_date == e.entry_date)
      = store.any (fun x => x.entry_date == e.entry_date) := by
  rw [Bool.eq_iff_iff]
  simp only [List.any_eq_true]
  constructor
  · rintro ⟨x, hx, hor⟩
    rcases Bool.or_eq_true_iff.mp hor with h | h
    · exact absurd (beq_iff_eq.mp h) (hid x hx)
    · exact ⟨x, hx, h⟩
  · rintro ⟨x, hx, h⟩
    exact ⟨x, hx, Bool.or_eq_true_iff.mpr (Or.inr h)⟩

theorem importLoop_spec : ∀ (entries : List Entry) (store : Store) (k : Nat),
    List.Pairwise (fun a b : Entry => a.id ≠ b.id ∧ a.entry_date ≠ b.entry_date) entries →
    (∀ e ∈ entries, ∀ x ∈ store, x.id ≠ e.id) →
    importLoop store k entries =
      (k + (entries.filter (fun e =>
        !(store.any (fun x => x.entry_date == e.entry_date)))).length,
       store ++ entries.filter (fun e =>
        !(store.any (fun x => x.entry_date == e.entry_date)))) := by
  intro entries
  induction entries with
  | nil => intro store k _ _; simp [importLoop]
  | cons e rest ih =>
    intro store k hpw hid
    rcases List.pairwise_cons.mp hpw with ⟨he, hrest⟩
    have hcond := any_key_eq_any_date (fun x hx => hid e (by simp) x hx)
    by_cases hcol : store.any (fun x => x.entry_date == e.entry_date) = true
    · have hadd : dbAdd store e = none := by
        unfold dbAdd
        rw [hcond, if_pos hcol]
      have hres := ih store k hrest (fun a ha x hx => hid a (by simp [ha]) x hx)
      simp only [importLoop, hadd, hres]
      rw [List.filter_cons_of_neg (by simp [hcol])]
    · have hcol' : store.any (fun x => x.entry_date == e.entry_date) = false :=
        Bool.not_eq_true _ ▸ hcol
      have hadd : dbAdd store e = some (store ++ [e]) := by
        unfold dbAdd
        rw [hcond, hcol']
        rfl
      have hid' : ∀ a ∈ rest, ∀ x ∈ store ++ [e], x.id ≠ a.id := by
        intro a ha x hx
        rcases List.mem_append.mp hx with hx | hx
        · exact hid a (by simp [ha]) x hx
        · have hxe : x = e := by simpa using hx
          subst hxe
          exact (he a ha).1
      have hres := ih (store ++ [e]) (k + 1) hrest hid'
      have hfilter : rest.filter (fun a =>
          !((store ++ [e]).any (fun x => x.entry_date == a.entry_date)))
          = rest.filter (fun a =>
          !(store.any (fun x => x.entry_date == a.entry_date))) := by
        apply List.filter_congr
        intro a ha
        have hne : e.entry_date ≠ a.entry_date := (he a ha).2
        simp [List.any_append, hne]
      simp only [importLoop, hadd, hres, hfilter]
      rw [List.filter_cons_of_pos (by simp [hcol'])]
      rw [Prod.mk.injEq]
      refine ⟨by simp [Nat.add_comm, Nat.add_assoc, Nat.add_left_comm], by simp⟩

/-- C6: importing the export of a well-formed store into an empty store
restores exactly the original records and reports their number; importing
it into a store already holding colliding dates (ids being fresh) skips
exactly the date-colliding records and reports the exact number of
records inserted. -/
theorem export_import_spec (store store2 : Store)
    (hwf : storeWF store)
    (hid : ∀ e ∈ store, ∀ x ∈ store2, x.id ≠ e.id) :
    importDatabase [] (exportDatabase store) = (store.length, store) ∧
    importDatabase store2 (exportDatabase store) =
      ((store.filter (fun e =>
        !(store2.any (fun x => x.entry_date == e.entry_date)))).length,
       store2 ++ store.filter (fun e =>
        !(store2.any (fun x => x.entry_date == e.entry_date)))) := by
  constructor
  · have h := importLoop_spec store [] 0 hwf (by intro e _ x hx; cases hx)
    simpa [importDatabase, exportDatabase] using h
  · have h := importLoop_spec store store2 0 hwf hid
    simpa [importDatabase, exportDatabase] using h

/-- C6 witness: round trip of a two-entry store into an empty store, and
an import into a store holding one colliding date. -/
theorem export_import_witness :
    importDatabase [] (exportDatabase [demoEntry, demoEntry2]) =
      (2, [demoEntry, demoEntry2]) ∧
    importDatabase [{ demoEntry2 with id := "id3", gratitude_text := "other" }]
        (exportDatabase [demoEntry, demoEntry2]) =
      (1, [{ demoEntry2 with id := "id3", gratitude_text := "other" }, demoEntry]) := by
  have h := export_import_spec [demoEntry, demoEntry2]
    [{ demoEntry2 with id := "id3", gratitude_text := "other" }]
    (by simp [storeWF, demoEntry, demoEntry2]) (by decide)
  exact ⟨h.1.trans (by decide), h.2.trans (by decide)⟩

theorem find?_conj (p q : Entry → Bool) :
    ∀ (l : List Entry) (h : Entry), l.find? p = some h → q h = true →
      l.find? (fun e => q e && p e) = some h := by
  intro l
  induction l with
  | nil => intro h hf _; cases hf
  | cons a rest ih =>
    intro h hf hq
    by_cases hpa : p a = true
    · rw [List.find?_cons_of_pos _ hpa] at hf
      cases hf
      exact List.find?_cons_of_pos _ (by simp [hpa, hq])
    · rw [List.find?_cons_of_neg _ (by simp [hpa])] at hf
      rw [List.find?_cons_of_neg _ (by simp [hpa])]
      exact ih h hf hq

theorem insertionSort_ratingDesc_head :
    ∀ l : List Entry, (List.insertionSort ratingDesc l).head? =
      l.find? (fun e => l.all (fun x => decide (x.rating ≤ e.rating))) := by
  intro l
  induction l with
  | nil => rfl
  | cons a rest ih =>
    have hsort : List.insertionSort ratingDesc (a :: rest)
        = List.orderedInsert ratingDesc a (List.insertionSort ratingDesc rest) := rfl
    cases hrest : List.insertionSort ratingDesc rest with
    | nil =>
      have hlen := congrArg List.length hrest
      rw [List.length_insertionSort] at hlen
      have hrn : rest = [] := List.length_eq_zero.mp hlen
      subst hrn
      rw [hsort]
      simp [List.orderedInsert, List.find?, ratingDesc]
    | cons h t =>
      have hfind : rest.find? (fun e =>
          rest.all (fun x => decide (x.rating ≤ e.rating))) = some h := by
        rw [← ih, hrest]
        rfl
      have hph := List.find?_some hfind
      have hmem := List.mem_of_find?_eq_some hfind
      have hall : ∀ x ∈ rest, x.rating ≤ h.rating := by
        intro x hx
        exact of_decide_eq_true (List.all_eq_true.mp hph x hx)
      rw [hsort, hrest]
      by_cases hcmp : h.rating ≤ a.rating
      · have hoi : List.orderedInsert ratingDesc a (h :: t) = a :: h :: t := by
          simp [List.orderedInsert, ratingDesc, hcmp]
        rw [hoi]
        have hpa : ((a :: rest).all (fun x => decide (x.rating ≤ a.rating))) = true := by
          apply List.all_eq_true.mpr
          intro x hx
          rcases List.mem_cons.mp hx with rfl | hx
          · exact decide_eq_true le_rfl
          · exact decide_eq_true (le_trans (hall x hx) hcmp)
        have hfa : List.find? (fun e =>
            (a :: rest).all (fun x => decide (x.rating ≤ e.rating))) (a :: rest)
            = some a := List.find?_cons_of_pos _ hpa
        rw [hfa]
        exact List.head?_cons
      · have hlt : a.rating < h.rating := not_le.mp hcmp
        have hoi : List.orderedInsert ratingDesc a (h :: t)
            = h :: List.orderedInsert ratingDesc a t := by
          simp [List.orderedInsert, ratingDesc, hcmp]
        rw [hoi]
        have hpa : ¬ ((a :: rest).all (fun x => decide (x.rating ≤ a.rating))) = true := by
          intro hcontra
          have := of_decide_eq_true (List.all_eq_true.mp hcontra h (by simp [hmem]))
          omega
        have hfa : List.find? (fun e =>
            (a :: rest).all (fun x => decide (x.rating ≤ e.rating))) (a :: rest)
            = List.find? (fun e =>
            (a :: rest).all (fun x => decide (x.rating ≤ e.rating))) rest :=
          List.find?_cons_of_neg _ hpa
        rw [hfa]
        have hconj := find?_conj (fun e => rest.all (fun x => decide (x.rating ≤ e.rating)))
          (fun e => decide (a.rating ≤ e.rating)) rest h hfind
          (decide_eq_true (le_of_lt hlt))
        exact (List.head?_cons).trans hconj.symm

/-- C7: over the entries of the target month, `bestDay` is `null` when the
month has no entries; otherwise it is the date and rating of the first
entry, in input order, whose rating dominates every rating of the month
(the stable descending sort puts exactly that entry first), and such an
entry always exists when the month is nonempty. -/
theorem calculateMonthStats_bestDay (entries : List Entry) (year month : Nat) :
    (entries.filter (fun e => (getDatesInMonth year month).contains e.entry_date) = [] →
      (calculateMonthStats entries year month).bestDay = none) ∧
    (∀ b, firstMaxEntry (entries.filter (fun e =>
        (getDatesInMonth year month).contains e.entry_date)) = some b →
      (calculateMonthStats entries year month).bestDay = some (b.entry_date, b.rating) ∧
      b ∈ entries.filter (fun e => (getDatesInMonth year month).contains e.entry_date) ∧
      ∀ e ∈ entries.filter (fun e => (getDatesInMonth year month).contains e.entry_date),
        e.rating ≤ b.rating) ∧
    (entries.filter (fun e => (getDatesInMonth year month).contains e.entry_date) ≠ [] →
      ∃ b, firstMaxEntry (entries.filter (fun e =>
        (getDatesInMonth year month).contains e.entry_date)) = some b) := by
  set m := entries.filter (fun e => (getDatesInMonth year month).contains e.entry_date)
    with hm
  have hbd : (calculateMonthStats entries year month).bestDay =
      (if 0 < m.length then
        match List.insertionSort ratingDesc m with
        | best :: _ => some (best.entry_date, best.rating)
        | [] => none
      else none) := rfl
  refine ⟨?_, ?_, ?_⟩
  · intro hempty
    rw [hbd, hempty]
    simp
  · intro b hb
    have hmem : b ∈ m := List.mem_of_find?_eq_some hb
    have hpb := List.find?_some hb
    have hdom : ∀ e ∈ m, e.rating ≤ b.rating := fun e he =>
      of_decide_eq_true (List.all_eq_true.mp hpb e he)
    have hhead : (List.insertionSort ratingDesc m).head? = some b := by
      rw [insertionSort_ratingDesc_head]
      exact hb
    have hne : m ≠ [] := by
      intro h0
      rw [h0] at hmem
      cases hmem
    have hlen : 0 < m.length := List.length_pos.mpr hne
    refine ⟨?_, hmem, hdom⟩
    cases hsorted : List.insertionSort ratingDesc m with
    | nil =>
      rw [hsorted] at hhead
      cases hhead
    | cons best t =>
      rw [hsorted] at hhead
      have hbest : best = b := Option.some.inj hhead
      subst hbest
      rw [hbd, if_pos hlen, hsorted]
  · intro hne
    have hlen : 0 < m.length := List.length_pos.mpr hne
    cases hsorted : List.insertionSort ratingDesc m with
    | nil =>
      have hcl := congrArg List.length hsorted
      rw [List.length_insertionSort] at hcl
      simp only [List.length_nil] at hcl
      omega
    | cons best t =>
      refine ⟨best, ?_⟩
      rw [firstMaxEntry, ← insertionSort_ratingDesc_head, hsorted]
      rfl

/-- C7 witness: two entries of June 2024 tie at rating 7; `bestDay` is the
first of them in input order. -/
theorem calculateMonthStats_bestDay_witness :
    (calculateMonthStats
      [{ id := "a", entry_date := "2024-06-10", gratitude_text := "x", rating := 7,
         created_at := 1, updated_at := 1 },
       { id := "b", entry_date := "2024-06-20", gratitude_text := "y", rating := 7,
         created_at := 2, updated_at := 2 }] 2024 6).bestDay =
      some ("2024-06-10", 7) := by
  have h := (calculateMonthStats_bestDay
    [{ id := "a", entry_date := "2024-06-10", gratitude_text := "x", rating := 7,
       created_at := 1, updated_at := 1 },
     { id := "b", entry_date := "2024-06-20", gratitude_text := "y", rating := 7,
       created_at := 2, updated_at := 2 }] 2024 6).2.1
    { id := "a", entry_date := "2024-06-10", gratitude_text := "x", rating := 7,
      created_at := 1, updated_at := 1 } (by decide)
  exact h.1

end Gratefulness
